import Mathlib

/-!
Verification of the wiki full-text search glue layer
(`wiki/wiki/doctype/wiki_page/search.py`).

The Python module keeps one RediSearch index per wiki "space" (partition)
in sync with the Wiki Page collection.  We embed its data flow shallowly:

* strings are Lean `String`s; the handful of Python string operations the
  module uses (`in`, `startswith`, `endswith`, `split(" ")`,
  `replace(old, "")`) are reimplemented character-list by character-list
  with Python's semantics;
* the Redis / RediSearch backend is a small explicit state
  (`Backend`): a list of existing index names and a keyed document store;
  backend calls return `Except BackendError _`, and a fault-injection
  environment lets an operation fail with a generic response error, the
  way the external backend may;
* the module's functions (`search`'s query normalization,
  `get_space_route`, `rebuild_index`, `rebuild_index_in_background`,
  `create_index_for_records`, `remove_index_for_records`, `update_index`,
  `remove_index`, `drop_index`) become total Lean functions over that
  state; Python `try/except ResponseError: pass` becomes a `match` that
  restores the pre-call state on `.error`.
-/

/-! ## Python string primitives -/

/-- Python `s.startswith(p)`: `p.data` is a list-prefix of `s.data`. -/
def strStartsWith (s p : String) : Bool :=
  p.data.isPrefixOf s.data

/-- Python substring test over character lists: `pat` occurs contiguously. -/
def containsSub (pat : List Char) : List Char → Bool
  | [] => pat.isPrefixOf []
  | c :: rest => pat.isPrefixOf (c :: rest) || containsSub pat rest

/-- Python `sub in s` (substring containment). -/
def strContains (sub s : String) : Bool :=
  containsSub sub.data s.data

/-- Python `s.split(sep)` for a single-character separator: keeps empty
fields, and splitting the empty string yields `[[]]`. -/
def pySplit (sep : Char) : List Char → List (List Char)
  | [] => [[]]
  | c :: rest =>
    match pySplit sep rest with
    | [] => [[]]
    | p :: ps => if c = sep then [] :: p :: ps else (c :: p) :: ps

/-- Python `s.endswith("*")`: the last character is `*`. -/
def pyEndsWithStar (l : List Char) : Bool :=
  match l.getLast? with
  | some c => c == '*'
  | none => false

/-- Fuel-driven core of Python `s.replace(old, "")`: delete every
non-overlapping occurrence of `pat`, scanning left to right.  The fuel is
always instantiated with the length of the scanned list, which suffices. -/
def pyReplaceAllFuel : Nat → List Char → List Char → List Char
  | 0, s, _ => s
  | _ + 1, [], _ => []
  | fuel + 1, c :: rest, pat =>
    if !pat.isEmpty && pat.isPrefixOf (c :: rest) then
      pyReplaceAllFuel fuel ((c :: rest).drop pat.length) pat
    else
      c :: pyReplaceAllFuel fuel rest pat

/-- Python `s.replace(pat, "")`. -/
def pyReplace (s pat : String) : String :=
  ⟨pyReplaceAllFuel s.data.length s.data pat.data⟩

/-- Fuel-driven HTML tag stripper: deletes every `<`...`>` span (an
unterminated `<` swallows the rest of the input). -/
def stripTagsFuel : Nat → List Char → List Char
  | 0, s => s
  | _ + 1, [] => []
  | fuel + 1, c :: rest =>
    if c = '<' then
      stripTagsFuel fuel ((rest.dropWhile (fun d => !(d == '>'))).drop 1)
    else
      c :: stripTagsFuel fuel rest

/-- Modelled from the spec: `strip_html_tags` comes from the external
`frappe.utils` library, outside this repository; per the spec it must
"remove all tags, preserve visible text and whitespace-separated word
boundaries".  We model it as deleting every `<`...`>` tag span. -/
def strip_html_tags (s : String) : String :=
  ⟨stripTagsFuel s.data.length s.data⟩

/-! ## Data model -/

/-- Key namespace for indexed wiki pages (`PREFIX` in `search.py`). -/
def PREFIX : String := "wiki_page_search_doc"

/-- A Wiki Page row as fetched by `rebuild_index` / passed to
`update_index`: `name` (document id), `title`, `content` (HTML-bearing),
`route` (hierarchical path). -/
structure Doc where
  name : String
  title : String
  content : String
  route : String
deriving DecidableEq, Repr

/-- The hash stored for one indexed page (the `mapping` built in
`create_index_for_records`). -/
structure Mapping where
  title : String
  content : String
  route : String
deriving DecidableEq, Repr

/-- State of the external Redis / RediSearch backend plus the
`wiki_page_index_in_progress` cache flag: existing index names, the keyed
document store, and the rebuild flag. -/
structure Backend where
  indexes : List String
  docs : List (String × Mapping)
  inProgress : Bool
deriving DecidableEq, Repr

/-- The single error kind the backend surfaces (`ResponseError`). -/
inductive BackendError where
  | indexMissing
  | docMissing
  | indexExists
  | faulted
deriving DecidableEq, Repr

/-! ## Keyed-store helpers (the Redis keyspace) -/

/-- First mapping stored under `k`, if any. -/
def docsLookup : List (String × Mapping) → String → Option Mapping
  | [], _ => none
  | kv :: rest, k => if kv.1 = k then some kv.2 else docsLookup rest k

/-- Whether some entry is stored under `k`. -/
def docsHasKey : List (String × Mapping) → String → Bool
  | [], _ => false
  | kv :: rest, k => if kv.1 = k then true else docsHasKey rest k

/-- Redis `HSET key mapping`: overwrite the entry at `k`, or append it. -/
def upsertKV : List (String × Mapping) → String → Mapping → List (String × Mapping)
  | [], k, m => [(k, m)]
  | kv :: rest, k, m => if kv.1 = k then (k, m) :: rest else kv :: upsertKV rest k m

/-- Delete every entry stored under `k`. -/
def removeKV : List (String × Mapping) → String → List (String × Mapping)
  | [], _ => []
  | kv :: rest, k => if kv.1 = k then removeKV rest k else kv :: removeKV rest k

/-- Delete every entry whose key lies in an index's key namespace. -/
def removeByKeyStart : List (String × Mapping) → String → List (String × Mapping)
  | [], _ => []
  | kv :: rest, p =>
    if strStartsWith kv.1 p then removeByKeyStart rest p
    else kv :: removeByKeyStart rest p

/-- Membership in a list of index names. -/
def hasIndex : List String → String → Bool
  | [], _ => false
  | s :: rest, x => if s = x then true else hasIndex rest x

/-- Remove an index name. -/
def eraseIndex : List String → String → List String
  | [], _ => []
  | s :: rest, x => if s = x then rest else s :: eraseIndex rest x

/-! ## Backend operations -/

/-- The Redis key under which a page of a space is stored:
`f"{PREFIX}{space}:{d.name}"` (the site-scoping of `r.make_key` is an
external framework concern and is modelled as the identity). -/
def makeKey (space name : String) : String :=
  PREFIX ++ space ++ ":" ++ name

/-- The key namespace registered for a space's index
(`prefix=[f"{PREFIX}{space}:"]` in the index definition). -/
def keyStartFor (space : String) : String :=
  PREFIX ++ space ++ ":"

/-- RediSearch `FT.DROPINDEX ... DD`: deleting a missing index is a
`ResponseError`; deleting an existing one also deletes its documents. -/
def ft_dropindex (b : Backend) (space : String) : Except BackendError Backend :=
  if hasIndex b.indexes space then
    Except.ok
      { indexes := eraseIndex b.indexes space
        docs := removeByKeyStart b.docs (keyStartFor space)
        inProgress := b.inProgress }
  else Except.error BackendError.indexMissing

/-- RediSearch `FT.CREATE`: fails when the backend rejects the call
(fault-injection environment `env`, standing for an arbitrary
`ResponseError`) or when the index already exists. -/
def ft_create_index (env : String → Bool) (b : Backend) (space : String) :
    Except BackendError Backend :=
  if env space then Except.error BackendError.faulted
  else if hasIndex b.indexes space then Except.error BackendError.indexExists
  else Except.ok { b with indexes := b.indexes ++ [space] }

/-- RediSearch `delete_document`: reports a missing index or a missing
document as a `ResponseError`. -/
def ft_delete_document (b : Backend) (space key : String) : Except BackendError Backend :=
  if hasIndex b.indexes space then
    if docsHasKey b.docs key then Except.ok { b with docs := removeKV b.docs key }
    else Except.error BackendError.docMissing
  else Except.error BackendError.indexMissing

/-- Redis `HSET` on a hash key: total. -/
def hset (b : Backend) (key : String) (m : Mapping) : Backend :=
  { b with docs := upsertKV b.docs key m }

/-! ## The module's functions -/

/-- Query normalization inside `search` (`search.py` lines 45-51),
operating on the already-cleaned query (`WikiSearch.clean_query` lives in
`wiki/wiki_search.py`, outside the indexing module; the claimed behaviour
is about what happens after cleaning):
split on single spaces; a lone term not ending in `*` gets `*` appended;
two or more terms are each wrapped in `%%` and joined with spaces. -/
def normalizeQuery (search_query : String) : String :=
  let query_parts := pySplit ' ' search_query.data
  let step1 :=
    if query_parts.length == 1 && !(pyEndsWithStar (query_parts.headD [])) then
      (query_parts.headD []) ++ ['*']
    else search_query.data
  if query_parts.length > 1 then
    ⟨List.intercalate [' '] (query_parts.map (fun q => '%' :: '%' :: (q ++ ['%', '%'])))⟩
  else ⟨step1⟩

/-- The `f"%%{q}%%"` wrapper applied to each term of a multi-term query. -/
def wrapFuzzy (t : List Char) : List Char :=
  '%' :: '%' :: (t ++ ['%', '%'])

/-- Embedding of `get_space_route(path)`: iterate over the known space
routes in retrieval order and return the first one contained in `path`
(Python `space in path`); `none` when the loop falls through. -/
def get_space_route (routes : List String) (path : String) : Option String :=
  routes.find? (fun space => strContains space path)

/-- Python renders `None` as `"None"` inside an f-string; `update_index`
and `remove_index` pass the result of `get_space_route` straight into
`f"{PREFIX}{space}:{d.name}"`. -/
def pyStrOfOption : Option String → String
  | some s => s
  | none => "None"

/-- The list-comprehension filter of `rebuild_index` (lines 108-116):
keep a page when its route equals `space + "/"`, or starts with
`space + "/"` and the route with every occurrence of `space + "/"`
deleted does not start with `"v"`. -/
def selectedForIndex (space route : String) : Bool :=
  if space ++ "/" = route then true
  else strStartsWith route (space ++ "/")
    && !(strStartsWith (pyReplace route (space ++ "/")) "v")

/-- `records_to_index` of `rebuild_index`: the pages selected for a space. -/
def records_to_index (wiki_pages : List Doc) (space : String) : List Doc :=
  wiki_pages.filter (fun d => selectedForIndex space d.route)

/-- Embedding of `create_index_for_records(records, space)`: for each
record, `HSET` the mapping `{title, strip_html_tags(content), route}`
under `f"{PREFIX}{space}:{d.name}"`.  The progress bar is observability
only and is not modelled. -/
def create_index_for_records (b : Backend) (records : List Doc) (space : String) : Backend :=
  records.foldl
    (fun acc d =>
      hset acc (makeKey space d.name)
        { title := d.title, content := strip_html_tags d.content, route := d.route })
    b

/-- Embedding of `remove_index_for_records(records, space)`: delete each
record's document, swallowing any `ResponseError` (`except ... : pass`). -/
def remove_index_for_records (b : Backend) (records : List Doc) (space : String) : Backend :=
  records.foldl
    (fun acc d =>
      match ft_delete_document acc space (makeKey space d.name) with
      | Except.ok b2 => b2
      | Except.error _ => acc)
    b

/-- Embedding of `drop_index(space)`: `FT.DROPINDEX ... DD` with any
`ResponseError` swallowed. -/
def drop_index (b : Backend) (space : String) : Backend :=
  match ft_dropindex b space with
  | Except.ok b2 => b2
  | Except.error _ => b

/-- One iteration of `rebuild_index`'s per-space loop body (the `try`
block): drop the index, recreate it, select the space's pages and index
them.  Returns the resulting state and whether the body completed without
a `ResponseError`. -/
def rebuild_space (env : String → Bool) (b : Backend) (space : String)
    (wiki_pages : List Doc) : Backend × Bool :=
  let b1 := drop_index b space
  match ft_create_index env b1 space with
  | Except.error _ => (b1, false)
  | Except.ok b2 => (create_index_for_records b2 (records_to_index wiki_pages space) space, true)

/-- Observable events of a rebuild run: the `in_progress` flag updates and
one `processed` entry per space (`ok = false` when the caught
`ResponseError` was printed). -/
inductive RebuildEvent where
  | setFlag (value : Bool)
  | processed (space : String) (ok : Bool)
deriving DecidableEq, Repr

/-- The space of a `processed` event. -/
def processedSpaceOf : RebuildEvent → Option String
  | RebuildEvent.processed s _ => some s
  | _ => none

/-- The `for space in spaces` loop of `rebuild_index`, with its trace. -/
def rebuild_loop (env : String → Bool) (b : Backend) (spaces : List String)
    (wiki_pages : List Doc) : Backend × List RebuildEvent :=
  match spaces with
  | [] => (b, [])
  | s :: rest =>
    let r1 := rebuild_space env b s wiki_pages
    let r2 := rebuild_loop env r1.1 rest wiki_pages
    (r2.1, RebuildEvent.processed s r1.2 :: r2.2)

/-- Embedding of `rebuild_index()`: set `wiki_page_index_in_progress`,
run the per-space loop (each space's `ResponseError` caught and printed),
then clear the flag. -/
def rebuild_index (env : String → Bool) (b : Backend) (spaces : List String)
    (wiki_pages : List Doc) : Backend × List RebuildEvent :=
  let b0 : Backend := { b with inProgress := true }
  let r := rebuild_loop env b0 spaces wiki_pages
  ({ r.1 with inProgress := false },
    RebuildEvent.setFlag true :: (r.2 ++ [RebuildEvent.setFlag false]))

/-- Embedding of `rebuild_index_in_background()`: when the
`wiki_page_index_in_progress` flag is unset, enqueue one rebuild job on
the `long` queue; otherwise do nothing.  The queue is the job list. -/
def rebuild_index_in_background (b : Backend) (queue : List String) : List String :=
  if b.inProgress then queue else queue ++ ["rebuild_index"]

/-- Embedding of `update_index(doc)`: build the record, resolve the space
from the route, and index the single record under that space (a `None`
resolution is rendered as the string `"None"` inside the key). -/
def update_index (routes : List String) (b : Backend) (doc : Doc) : Backend :=
  let record : Doc :=
    { name := doc.name, title := doc.title, content := doc.content, route := doc.route }
  let space := get_space_route routes doc.route
  create_index_for_records b [record] (pyStrOfOption space)

/-- Embedding of `remove_index(doc)`: resolve the space from the route and
remove the single record (a `None` resolution rendered as `"None"`). -/
def remove_index (routes : List String) (b : Backend) (doc : Doc) : Backend :=
  let space := get_space_route routes doc.route
  remove_index_for_records b [doc] (pyStrOfOption space)

/-! ## Definitions following the spec's words (for refinement claims) -/

/-- Spec-side partition resolution, following "longest-prefix match of its
route against known partition routes": among the routes that are a prefix
of the path, pick one of maximal length. -/
def longestMatchRoute (routes : List String) (path : String) : Option String :=
  routes.foldl
    (fun best r =>
      if strStartsWith path r
          && (match best with
              | none => true
              | some b => decide (b.length < r.length)) then
        some r
      else best)
    none

/-- First path segment of a route remainder (up to the first `/`). -/
def firstSegment (s : String) : String :=
  ⟨s.data.takeWhile (fun c => !(c == '/'))⟩

/-- Spec-side reading of a "version-marker segment" (the spec's examples
are `v2`-style): a `v` followed by one or more digits. -/
def isVersionMarker (seg : String) : Bool :=
  strStartsWith seg "v" && seg.length > 1 && (seg.data.drop 1).all (fun c => c.isDigit)

/-- Spec-side selection rule for a space's pages, following the spec's
words: routes equal to `space + "/"` or under it, excluding those whose
segment immediately under the space is a version-marker segment. -/
def specSelectedForIndex (space route : String) : Bool :=
  if space ++ "/" = route then true
  else strStartsWith route (space ++ "/")
    && !(isVersionMarker (firstSegment ⟨route.data.drop (space ++ "/").length⟩))

/-! ## Helper lemmas -/

theorem pySplit_ne_nil (sep : Char) (l : List Char) : pySplit sep l ≠ [] := by
  cases l with
  | nil => simp [pySplit]
  | cons c rest =>
    simp only [pySplit]
    cases h : pySplit sep rest with
    | nil => simp
    | cons p ps =>
      by_cases hc : c = sep <;> simp [hc]

theorem pySplit_singleton (sep : Char) (l : List Char) (p : List Char)
    (h : pySplit sep l = [p]) : p = l := by
  induction l generalizing p with
  | nil =>
    simp [pySplit] at h
    exact h
  | cons c rest ih =>
    cases hr : pySplit sep rest with
    | nil => exact absurd hr (pySplit_ne_nil sep rest)
    | cons q qs =>
      simp only [pySplit, hr] at h
      by_cases hc : c = sep
      · simp [hc] at h
      · simp only [if_neg hc] at h
        have h1 : c :: q = p := List.head_eq_of_cons_eq h
        have h2 : qs = [] := List.tail_eq_of_cons_eq h
        subst h2
        have hq : q = rest := ih q hr
        subst hq
        exact h1.symm

theorem string_mk_append (s : String) (l : List Char) :
    (⟨s.data ++ l⟩ : String) = s ++ (⟨l⟩ : String) := by
  apply String.ext
  simp [String.data_append]

/-- Claim C2: query normalization is total (it is a function) and, on the
cleaned query, appends `*` to a lone term not already ending in `*`,
leaves a lone `*`-terminated term alone, and wraps each term of a
multi-term query in `%%`, joining with single spaces; with the quoted
examples `normalize "cat" = "cat*"` and
`normalize "cat dog" = "%%cat%% %%dog%%"`. -/
theorem normalize_query_behavior (q : String) :
    ((pySplit ' ' q.data).length = 1 → pyEndsWithStar q.data = false →
      normalizeQuery q = q ++ "*") ∧
    ((pySplit ' ' q.data).length = 1 → pyEndsWithStar q.data = true →
      normalizeQuery q = q) ∧
    ((pySplit ' ' q.data).length > 1 →
      normalizeQuery q =
        ⟨List.intercalate [' '] ((pySplit ' ' q.data).map wrapFuzzy)⟩) ∧
    normalizeQuery "cat" = "cat*" ∧
    normalizeQuery "cat*" = "cat*" ∧
    normalizeQuery "cat dog" = "%%cat%% %%dog%%" := by
  refine ⟨?_, ?_, ?_, by decide, by decide, by decide⟩
  · intro hlen hstar
    obtain ⟨p, hp⟩ := List.length_eq_one.mp hlen
    have hpq : p = q.data := pySplit_singleton ' ' q.data p hp
    subst hpq
    have : (⟨q.data ++ ['*']⟩ : String) = q ++ "*" := string_mk_append q ['*']
    rw [← this]
    simp [normalizeQuery, hp, hstar]
  · intro hlen hstar
    obtain ⟨p, hp⟩ := List.length_eq_one.mp hlen
    have hpq : p = q.data := pySplit_singleton ' ' q.data p hp
    subst hpq
    simp [normalizeQuery, hp, hstar]
  · intro hlen
    have h1 : ((pySplit ' ' q.data).length == 1) = false := by
      simp only [beq_eq_false_iff_ne, ne_eq]
      omega
    simp only [normalizeQuery, h1, Bool.false_and, if_pos hlen]
    rfl

/-- Witness for C2 at the concrete single-term query `"cat"`. -/
theorem normalize_query_behavior_witness : normalizeQuery "cat" = "cat" ++ "*" :=
  (normalize_query_behavior "cat").1 (by decide) (by decide)

theorem find_first_substring (path : String) (routes : List String) (r : String)
    (h : List.find? (fun s => strContains s path) routes = some r) :
    strContains r path = true ∧
    ∃ pre post, routes = pre ++ r :: post ∧ ∀ s ∈ pre, strContains s path = false := by
  induction routes with
  | nil => simp at h
  | cons a t ih =>
    by_cases ha : strContains a path = true
    · rw [@List.find?_cons_of_pos String (fun s => strContains s path) a t ha] at h
      cases h
      exact ⟨ha, [], t, rfl, by simp⟩
    · rw [@List.find?_cons_of_neg String (fun s => strContains s path) a t ha] at h
      obtain ⟨hr, pre, post, heq, hpre⟩ := ih h
      refine ⟨hr, a :: pre, post, by simp [heq], ?_⟩
      intro s hs
      cases hs with
      | head => simpa using ha
      | tail _ hs2 => exact hpre s hs2

/-- Claim C1 is false on the code: `get_space_route` returns the first
route (in retrieval order) that occurs as a substring of the path, not
the longest prefix match.  With known routes `["docs", "docs/guides"]`,
the path `"docs/guides/intro"` resolves to `"docs"` even though
`"docs/guides"` is the (strictly longer) longest-prefix-matching route. -/
theorem get_space_route_not_longest :
    get_space_route ["docs", "docs/guides"] "docs/guides/intro" = some "docs" ∧
    longestMatchRoute ["docs", "docs/guides"] "docs/guides/intro" = some "docs/guides" ∧
    strStartsWith "docs/guides/intro" "docs/guides" = true ∧
    ("docs" : String) ≠ "docs/guides" := by
  refine ⟨by decide, by decide, by decide, by decide⟩

/-- Amended claim C1: `get_space_route` returns the first known partition
route, in retrieval order, that occurs as a substring (Python `in`) of
the path; it returns `none` exactly when no known route occurs in the
path. -/
theorem get_space_route_first_substring (routes : List String) (path : String) :
    (∀ r, get_space_route routes path = some r →
      strContains r path = true ∧
      ∃ pre post, routes = pre ++ r :: post ∧ ∀ s ∈ pre, strContains s path = false) ∧
    (get_space_route routes path = none ↔ ∀ s ∈ routes, strContains s path = false) := by
  constructor
  · intro r h
    exact find_first_substring path routes r h
  · simp only [get_space_route, List.find?_eq_none, Bool.not_eq_true]

/-- Witness for the amended C1 at a concrete route list and path. -/
theorem get_space_route_first_substring_witness :
    strContains "docs" "docs/x" = true ∧
    ∃ pre post, ["a", "docs"] = pre ++ "docs" :: post ∧
      ∀ s ∈ pre, strContains s "docs/x" = false :=
  (get_space_route_first_substring ["a", "docs"] "docs/x").1 "docs" (by decide)

theorem isPrefixOf_self (l : List Char) : l.isPrefixOf l = true := by
  induction l with
  | nil => rfl
  | cons c rest ih => simp [List.isPrefixOf, ih]

theorem pyReplaceAllFuel_nil (fuel : Nat) (pat : List Char) :
    pyReplaceAllFuel fuel [] pat = [] := by
  cases fuel <;> rfl

theorem pyReplace_self (s : String) (h : s.data ≠ []) : pyReplace s s = "" := by
  apply String.ext
  show pyReplaceAllFuel s.data.length s.data s.data = "".data
  cases hd : s.data with
  | nil => exact absurd hd h
  | cons c rest =>
    simp only [hd, List.length_cons, pyReplaceAllFuel]
    rw [if_pos]
    · rw [show List.drop (rest.length + 1) (c :: rest) = [] from List.drop_length (c :: rest)]
      exact pyReplaceAllFuel_nil rest.length (c :: rest)
    · simp [isPrefixOf_self]

/-- Claim C5 is false on the code: the rebuild filter does not exclude
exactly the version-marker sub-routes.  With partition `"docs"`, the page
with route `"docs/vocabulary"` is under the partition and its first
segment `"vocabulary"` is no version marker, so the claimed rule keeps
it; the code drops it (the remainder starts with the letter `v`).  The
claim's own example `"docs/v2/intro"` is indeed excluded. -/
theorem version_exclusion_counterexample :
    records_to_index [⟨"p1", "T", "c", "docs/vocabulary"⟩] "docs" = [] ∧
    specSelectedForIndex "docs" "docs/vocabulary" = true ∧
    selectedForIndex "docs" "docs/v2/intro" = false := by
  refine ⟨by decide, by decide, by decide⟩

/-- Amended claim C5: during rebuild a space's selected pages are exactly
those whose route equals `space + "/"`, or starts with `space + "/"` and,
after deleting every occurrence of `space + "/"` from the route, the
remainder does not begin with the character `v`; in particular
`docs/v2/intro` under `docs` is excluded and `docs/intro` is kept. -/
theorem records_to_index_membership (pages : List Doc) (space : String) (d : Doc) :
    (d ∈ records_to_index pages space ↔
      d ∈ pages ∧
        (space ++ "/" = d.route ∨
          (strStartsWith d.route (space ++ "/") = true ∧
            strStartsWith (pyReplace d.route (space ++ "/")) "v" = false))) ∧
    records_to_index [⟨"p1", "T", "c", "docs/v2/intro"⟩] "docs" = [] ∧
    selectedForIndex "docs" "docs/intro" = true := by
  refine ⟨?_, by decide, by decide⟩
  rw [records_to_index, List.mem_filter]
  constructor
  · rintro ⟨hmem, hsel⟩
    refine ⟨hmem, ?_⟩
    by_cases heq : space ++ "/" = d.route
    · exact Or.inl heq
    · simp only [selectedForIndex, if_neg heq, Bool.and_eq_true, Bool.not_eq_true'] at hsel
      exact Or.inr hsel
  · rintro ⟨hmem, hsel⟩
    refine ⟨hmem, ?_⟩
    by_cases heq : space ++ "/" = d.route
    · simp [selectedForIndex, heq]
    · rcases hsel with h | ⟨h1, h2⟩
      · exact absurd h heq
      · simp [selectedForIndex, if_neg heq, h1, h2]

/-- Witness for the amended C5: a page with route `docs/intro` is selected
for the partition `docs`. -/
theorem records_to_index_membership_witness :
    (⟨"p1", "T", "c", "docs/intro"⟩ : Doc) ∈
      records_to_index [⟨"p1", "T", "c", "docs/intro"⟩] "docs" :=
  (records_to_index_membership [⟨"p1", "T", "c", "docs/intro"⟩] "docs"
      ⟨"p1", "T", "c", "docs/intro"⟩).1.mpr
    ⟨by decide, Or.inr ⟨by decide, by decide⟩⟩

/-- Claim C10 is false as universally stated: with partition `"v"` and
route `"v/v/x"`, the first route segment under the partition is `"v"`
(which starts with the letter `v`), yet the page is selected, because the
code deletes every occurrence of `"v/"` from the route (Python
`str.replace`), leaving `"x"`.  The claim's own example
(`docs/vocabulary` under `docs`) does behave as it says. -/
theorem first_segment_v_still_selected :
    firstSegment "v/x" = "v" ∧
    strStartsWith (firstSegment "v/x") "v" = true ∧
    strStartsWith "v/v/x" ("v" ++ "/") = true ∧
    records_to_index [⟨"p1", "T", "c", "v/v/x"⟩] "v" = [⟨"p1", "T", "c", "v/v/x"⟩] := by
  refine ⟨by decide, by decide, by decide, by decide⟩

/-- Amended claim C10: for a route under the partition, the rebuild's
exclusion tests only whether the route with every occurrence of
`space + "/"` deleted begins with the character `v`; so any page whose
remainder after that deletion starts with `v` — for example
`docs/vocabulary` under `docs` — is excluded, not only version-marker
paths like `v2`; when the partition route repeats inside the path, the
deleted occurrences can differ from the leading segment. -/
theorem exclusion_tests_replaced_remainder (space route : String) :
    (strStartsWith route (space ++ "/") = true →
      (selectedForIndex space route = true ↔
        strStartsWith (pyReplace route (space ++ "/")) "v" = false)) ∧
    selectedForIndex "docs" "docs/vocabulary" = false ∧
    selectedForIndex "docs" "docs/v2/intro" = false := by
  refine ⟨?_, by decide, by decide⟩
  intro hpre
  by_cases heq : space ++ "/" = route
  · have hne : (space ++ "/").data ≠ [] := by
      rw [String.data_append]
      simp
    have hrepl : pyReplace route (space ++ "/") = "" := by
      rw [← heq]
      exact pyReplace_self (space ++ "/") hne
    rw [hrepl]
    constructor
    · intro _
      decide
    · intro _
      simp [selectedForIndex, heq]
  · simp only [selectedForIndex, if_neg heq, hpre, Bool.true_and, Bool.not_eq_true']

/-- Witness for the amended C10 at partition `docs`, route `docs/guide`
(kept) — the remainder `guide` does not start with `v`. -/
theorem exclusion_tests_replaced_remainder_witness :
    selectedForIndex "docs" "docs/guide" = true :=
  ((exclusion_tests_replaced_remainder "docs" "docs/guide").1 (by decide)).mpr (by decide)

theorem rebuild_loop_processes (env : String → Bool) (wiki_pages : List Doc) :
    ∀ (spaces : List String) (b : Backend),
      (rebuild_loop env b spaces wiki_pages).2.filterMap processedSpaceOf = spaces := by
  intro spaces
  induction spaces with
  | nil => intro b; rfl
  | cons s rest ih =>
    intro b
    simp only [rebuild_loop, List.filterMap_cons, processedSpaceOf]
    rw [ih]

/-- Claim C3: a bulk rebuild over any sequence of partitions first sets
`in_progress`, processes every partition in order — a `ResponseError`
from the backend while rebuilding one partition (here: any behaviour of
the fault environment `env`) is caught and reported as a
`processed _ false` event, never raised — and finally clears the flag;
no partition failure prevents the later partitions or the final flag
reset. -/
theorem rebuild_index_flag_and_isolation (env : String → Bool) (b : Backend)
    (spaces : List String) (wiki_pages : List Doc) :
    (rebuild_index env b spaces wiki_pages).1.inProgress = false ∧
    (rebuild_index env b spaces wiki_pages).2.head? = some (RebuildEvent.setFlag true) ∧
    (rebuild_index env b spaces wiki_pages).2.getLast? = some (RebuildEvent.setFlag false) ∧
    (rebuild_index env b spaces wiki_pages).2.filterMap processedSpaceOf = spaces := by
  refine ⟨rfl, rfl, ?_, ?_⟩
  · show (RebuildEvent.setFlag true ::
      ((rebuild_loop env { b with inProgress := true } spaces wiki_pages).2 ++
        [RebuildEvent.setFlag false])).getLast? = some (RebuildEvent.setFlag false)
    rw [← List.cons_append]
    exact List.getLast?_concat _
  · show (RebuildEvent.setFlag true ::
      ((rebuild_loop env { b with inProgress := true } spaces wiki_pages).2 ++
        [RebuildEvent.setFlag false])).filterMap processedSpaceOf = spaces
    simp only [List.filterMap_cons, List.filterMap_append, processedSpaceOf]
    simp [rebuild_loop_processes env wiki_pages spaces]

/-- Claim C4: `rebuild_index_in_background` is a no-op while the
`in_progress` flag is set, enqueues exactly one rebuild job when it is
clear, and two sequential calls under a set flag enqueue nothing. -/
theorem rebuild_in_background_admission (b : Backend) (queue : List String) :
    (b.inProgress = true → rebuild_index_in_background b queue = queue) ∧
    (b.inProgress = false →
      rebuild_index_in_background b queue = queue ++ ["rebuild_index"] ∧
      (rebuild_index_in_background b queue).length = queue.length + 1) ∧
    (b.inProgress = true →
      rebuild_index_in_background b (rebuild_index_in_background b queue) = queue) := by
  refine ⟨?_, ?_, ?_⟩
  · intro h
    simp [rebuild_index_in_background, h]
  · intro h
    constructor
    · simp [rebuild_index_in_background, h]
    · simp [rebuild_index_in_background, h]
  · intro h
    simp [rebuild_index_in_background, h]

/-- Witness for C4: with the flag set, a call leaves the queue unchanged. -/
theorem rebuild_in_background_admission_witness :
    rebuild_index_in_background ⟨[], [], true⟩ [] = [] :=
  (rebuild_in_background_admission ⟨[], [], true⟩ []).1 rfl

theorem docsHasKey_removeKV (l : List (String × Mapping)) (k : String) :
    docsHasKey (removeKV l k) k = false := by
  induction l with
  | nil => rfl
  | cons kv rest ih =>
    by_cases h : kv.1 = k
    · simp [removeKV, h, ih]
    · simp [removeKV, h, docsHasKey, ih]

/-- Claim C6: removal never propagates a backend error — when
`delete_document` reports a `ResponseError` (missing document or missing
index) the error is swallowed and the state is kept; removing the same
document twice is a no-op the second time; and with no index for the
space, removal of any sequence of records succeeds without changing
anything. -/
theorem remove_index_swallows_and_idempotent (b : Backend) (space : String) (d : Doc) :
    (∀ e : BackendError,
      ft_delete_document b space (makeKey space d.name) = Except.error e →
        remove_index_for_records b [d] space = b) ∧
    remove_index_for_records (remove_index_for_records b [d] space) [d] space
      = remove_index_for_records b [d] space ∧
    (hasIndex b.indexes space = false →
      ∀ records : List Doc, remove_index_for_records b records space = b) := by
  refine ⟨?_, ?_, ?_⟩
  · intro e he
    simp [remove_index_for_records, he]
  · cases h1 : ft_delete_document b space (makeKey space d.name) with
    | error e =>
      simp [remove_index_for_records, h1]
    | ok b2 =>
      have hb2 : b2 = { b with docs := removeKV b.docs (makeKey space d.name) } := by
        simp only [ft_delete_document] at h1
        by_cases hi : hasIndex b.indexes space = true
        · rw [if_pos hi] at h1
          by_cases hk : docsHasKey b.docs (makeKey space d.name) = true
          · rw [if_pos hk] at h1
            cases h1
            rfl
          · rw [if_neg hk] at h1
            cases h1
        · rw [if_neg hi] at h1
          cases h1
      have hi : hasIndex b.indexes space = true := by
        simp only [ft_delete_document] at h1
        by_cases hi : hasIndex b.indexes space = true
        · exact hi
        · rw [if_neg hi] at h1
          cases h1
      have h2 : ft_delete_document b2 space (makeKey space d.name)
          = Except.error BackendError.docMissing := by
        rw [hb2]
        simp only [ft_delete_document]
        rw [if_pos hi, if_neg (by simp [docsHasKey_removeKV])]
      simp [remove_index_for_records, h1, h2]
  · intro hno records
    induction records with
    | nil => rfl
    | cons r rest ih =>
      have : ft_delete_document b space (makeKey space r.name)
          = Except.error BackendError.indexMissing := by
        simp [ft_delete_document, hno]
      simp only [remove_index_for_records, List.foldl_cons, this]
      exact ih

/-- Witness for C6: removing against a backend with no indexes swallows
the `index missing` error and returns the state unchanged. -/
theorem remove_index_swallows_witness :
    remove_index_for_records ⟨[], [], false⟩ [⟨"n", "t", "c", "r"⟩] "s" = ⟨[], [], false⟩ :=
  (remove_index_swallows_and_idempotent ⟨[], [], false⟩ "s" ⟨"n", "t", "c", "r"⟩).1
    BackendError.indexMissing rfl

theorem mem_removeByKeyStart (l : List (String × Mapping)) (p : String)
    (kv : String × Mapping) (h : kv ∈ removeByKeyStart l p) :
    strStartsWith kv.1 p = false := by
  induction l with
  | nil => simp [removeByKeyStart] at h
  | cons kv2 rest ih =>
    by_cases h2 : strStartsWith kv2.1 p = true
    · rw [removeByKeyStart, if_pos h2] at h
      exact ih h
    · rw [removeByKeyStart, if_neg h2] at h
      cases h with
      | head => simpa using h2
      | tail _ h3 => exact ih h3

theorem mem_removeByKeyStart_of_mem (l : List (String × Mapping)) (p : String)
    (kv : String × Mapping) (hmem : kv ∈ l) (hkv : strStartsWith kv.1 p = false) :
    kv ∈ removeByKeyStart l p := by
  induction l with
  | nil => simp at hmem
  | cons kv2 rest ih =>
    cases hmem with
    | head =>
      rw [removeByKeyStart, if_neg (by simp [hkv])]
      exact List.mem_cons_self _ _
    | tail _ h3 =>
      by_cases h2 : strStartsWith kv2.1 p = true
      · rw [removeByKeyStart, if_pos h2]
        exact ih h3
      · rw [removeByKeyStart, if_neg h2]
        exact List.mem_cons_of_mem _ (ih h3)

/-- Claim C7: `drop_index` deletes an existing index together with all
documents in its key namespace (keeping every other document), and when
the index does not exist the backend's `ResponseError` is swallowed and
the call leaves the state untouched — dropping a missing index is never
an error. -/
theorem drop_index_deletes_or_swallows (b : Backend) (space : String) :
    (hasIndex b.indexes space = false → drop_index b space = b) ∧
    (hasIndex b.indexes space = true →
      (drop_index b space).indexes = eraseIndex b.indexes space ∧
      (∀ kv, kv ∈ (drop_index b space).docs →
        strStartsWith kv.1 (keyStartFor space) = false) ∧
      (∀ kv, kv ∈ b.docs → strStartsWith kv.1 (keyStartFor space) = false →
        kv ∈ (drop_index b space).docs) ∧
      (drop_index b space).inProgress = b.inProgress) := by
  constructor
  · intro h
    simp [drop_index, ft_dropindex, h]
  · intro h
    have hd : drop_index b space =
        { indexes := eraseIndex b.indexes space
          docs := removeByKeyStart b.docs (keyStartFor space)
          inProgress := b.inProgress } := by
      simp [drop_index, ft_dropindex, h]
    refine ⟨by rw [hd], ?_, ?_, by rw [hd]⟩
    · intro kv hkv
      rw [hd] at hkv
      exact mem_removeByKeyStart b.docs (keyStartFor space) kv hkv
    · intro kv hmem hkv
      rw [hd]
      exact mem_removeByKeyStart_of_mem b.docs (keyStartFor space) kv hmem hkv

/-- Witness for C7: dropping the only index of a one-index backend erases
it, and dropping a missing index leaves the empty backend unchanged. -/
theorem drop_index_deletes_or_swallows_witness :
    drop_index ⟨[], [], false⟩ "docs" = ⟨[], [], false⟩ :=
  (drop_index_deletes_or_swallows ⟨[], [], false⟩ "docs").1 rfl

theorem dropWhile_length_le (p : Char → Bool) (l : List Char) :
    (l.dropWhile p).length ≤ l.length := by
  induction l with
  | nil => simp
  | cons c rest ih =>
    by_cases h : p c = true
    · rw [List.dropWhile_cons_of_pos h]
      exact Nat.le_trans ih (Nat.le_succ _)
    · rw [List.dropWhile_cons_of_neg h]

theorem stripTagsFuel_no_tag_open (fuel : Nat) :
    ∀ (s : List Char), s.length ≤ fuel → ∀ c ∈ stripTagsFuel fuel s, c ≠ '<' := by
  induction fuel with
  | zero =>
    intro s hs c hc
    have : s = [] := List.eq_nil_of_length_eq_zero (Nat.le_zero.mp hs)
    subst this
    simp [stripTagsFuel] at hc
  | succ fuel ih =>
    intro s hs c hc
    cases s with
    | nil => simp [stripTagsFuel] at hc
    | cons a rest =>
      by_cases ha : a = '<'
      · rw [stripTagsFuel, if_pos ha] at hc
        refine ih _ ?_ c hc
        have h1 : (rest.dropWhile (fun d => !(d == '>'))).length ≤ rest.length :=
          dropWhile_length_le _ rest
        have h2 : ((rest.dropWhile (fun d => !(d == '>'))).drop 1).length
            ≤ (rest.dropWhile (fun d => !(d == '>'))).length := by
          rw [List.length_drop]
          omega
        have h3 : rest.length + 1 ≤ fuel + 1 := hs
        omega
      · rw [stripTagsFuel, if_neg ha] at hc
        cases hc with
        | head => exact ha
        | tail _ hc2 =>
          refine ih rest ?_ c hc2
          have : rest.length + 1 ≤ fuel + 1 := hs
          omega

theorem docsLookup_upsertKV_same (l : List (String × Mapping)) (k : String) (m : Mapping) :
    docsLookup (upsertKV l k m) k = some m := by
  induction l with
  | nil => simp [upsertKV, docsLookup]
  | cons kv rest ih =>
    by_cases h : kv.1 = k
    · simp [upsertKV, h, docsLookup]
    · simp [upsertKV, h, docsLookup, ih]

theorem docsLookup_upsertKV_ne (l : List (String × Mapping)) (k k2 : String) (m : Mapping)
    (h : k2 ≠ k) : docsLookup (upsertKV l k m) k2 = docsLookup l k2 := by
  induction l with
  | nil =>
    simp only [upsertKV, docsLookup]
    rw [if_neg (Ne.symm h)]
  | cons kv rest ih =>
    by_cases hk : kv.1 = k
    · have hkv2 : ¬(kv.1 = k2) := by
        rw [hk]
        exact Ne.symm h
      simp only [upsertKV, if_pos hk, docsLookup]
      rw [if_neg (Ne.symm h), if_neg hkv2]
    · by_cases hk2 : kv.1 = k2
      · simp only [upsertKV, if_neg hk, docsLookup, if_pos hk2]
      · simp only [upsertKV, if_neg hk, docsLookup, if_neg hk2]
        exact ih

/-- Claim C8: indexing a single record writes exactly one entry, keyed by
the fixed key namespace, the partition and the document id
(`PREFIX ++ space ++ ":" ++ name`); its stored fields are exactly the
title (unchanged), the content with every HTML tag span removed (no `<`
survives), and the route (unchanged); every other key and the index list
are untouched. -/
theorem create_index_writes_one_record (b : Backend) (d : Doc) (space : String) :
    docsLookup (create_index_for_records b [d] space).docs (PREFIX ++ space ++ ":" ++ d.name)
      = some { title := d.title, content := strip_html_tags d.content, route := d.route } ∧
    (∀ k, k ≠ PREFIX ++ space ++ ":" ++ d.name →
      docsLookup (create_index_for_records b [d] space).docs k = docsLookup b.docs k) ∧
    (∀ c, c ∈ (strip_html_tags d.content).data → c ≠ '<') ∧
    (create_index_for_records b [d] space).indexes = b.indexes ∧
    strip_html_tags "<p>Hello <b>World</b></p>" = "Hello World" := by
  refine ⟨?_, ?_, ?_, rfl, by decide⟩
  · exact docsLookup_upsertKV_same b.docs (makeKey space d.name) _
  · intro k hk
    exact docsLookup_upsertKV_ne b.docs (makeKey space d.name) k _ hk
  · intro c hc
    exact stripTagsFuel_no_tag_open d.content.data.length d.content.data
      (Nat.le_refl _) c hc

/-- Witness for C8 at a concrete record: an unrelated key is unaffected by
the write. -/
theorem create_index_writes_one_record_witness :
    docsLookup
      (create_index_for_records ⟨[], [], false⟩
        [⟨"p1", "Intro", "<p>Hello <b>World</b></p>", "docs/intro"⟩] "docs").docs "zzz"
      = docsLookup (Backend.docs ⟨[], [], false⟩) "zzz" :=
  (create_index_writes_one_record ⟨[], [], false⟩
      ⟨"p1", "Intro", "<p>Hello <b>World</b></p>", "docs/intro"⟩ "docs").2.1
    "zzz" (by decide)

/-- Claim C9 is false on the code: when no known route matches, the
incremental upsert does proceed.  With known routes `["docs"]` and a page
routed `blog/post`, `get_space_route` yields no partition, yet
`update_index` still writes one record, keyed with the rendered absent
value (`"None"`) in place of the partition. -/
theorem update_index_proceeds_on_no_space :
    get_space_route ["docs"] "blog/post" = none ∧
    (update_index ["docs"] ⟨[], [], false⟩ ⟨"p1", "T", "c", "blog/post"⟩).docs
      = [("wiki_page_search_docNone:p1", ⟨"T", "c", "blog/post"⟩)] := by
  refine ⟨by decide, by decide⟩

/-- Amended claim C9: partition resolution does yield an explicit
"no partition" outcome (`None`, exactly when no known route occurs in the
path), but `update_index` does not stop on it: it proceeds and indexes
the record under the key in which the absent partition is rendered as the
string `"None"`. -/
theorem update_index_renders_none_key (routes : List String) (b : Backend) (d : Doc) :
    (get_space_route routes d.route = none ↔
      ∀ r ∈ routes, strContains r d.route = false) ∧
    (get_space_route routes d.route = none →
      docsLookup (update_index routes b d).docs (makeKey "None" d.name)
        = some { title := d.title, content := strip_html_tags d.content, route := d.route }) := by
  constructor
  · simp only [get_space_route, List.find?_eq_none, Bool.not_eq_true]
  · intro h
    show docsLookup
        (create_index_for_records b [d] (pyStrOfOption (get_space_route routes d.route))).docs
        (makeKey "None" d.name) = _
    rw [h]
    exact docsLookup_upsertKV_same b.docs (makeKey "None" d.name) _

/-- Witness for the amended C9: with no known routes at all, the written
record is found under the `"None"`-rendered key. -/
theorem update_index_renders_none_key_witness :
    docsLookup (update_index [] ⟨[], [], false⟩ ⟨"p1", "T", "c", "r"⟩).docs
        (makeKey "None" "p1")
      = some { title := "T", content := strip_html_tags "c", route := "r" } :=
  (update_index_renders_none_key [] ⟨[], [], false⟩ ⟨"p1", "T", "c", "r"⟩).2 rfl
